import Mathlib

/-!
Verification of the progress/statistics reporter in `cmd/fuzz/reporter.go`
(repository inverse/monsoon).

Modelling conventions:
* Wall-clock instants are natural numbers counting nanoseconds (Go's
  `time.Time`/`time.Duration` at nanosecond resolution); `time.Second` is
  `nsPerSec = 10^9`.
* Go `float64` values (the `rps` rate, the arguments of `formatSeconds`)
  are modelled as exact rationals `ℚ`; `float64` division is `qdiv`,
  which is proved equal to rational division.
* The Go map `StatusCodes map[int]int` is an association list
  `List (ℕ × ℕ)`; incrementing a bucket is `bump`.
* The terminal abstraction is modelled by a trace of events: `.print`
  for the transcript-append operations (`Print`/`Printf`) and
  `.setStatus` for the status-region operation.
-/

/-- One second (`time.Second`) in nanoseconds. -/
def nsPerSec : ℕ := 1000000000

/-- Division of Go `float64` values, modelled exactly on `ℚ`.  Written via
`Rat.divInt` so that it evaluates by kernel reduction; `qdiv_eq_div` below
shows it is ordinary rational division. -/
def qdiv (a b : ℚ) : ℚ := Rat.divInt (a.num * (b.den : ℤ)) (b.num * (a.den : ℤ))

/-- Go's `%02d` format verb: decimal rendering, left-padded with `0` to
width two. -/
def pad2 (n : ℤ) : String :=
  let s := toString n
  if s.length < 2 then "0" ++ s else s

/-- `formatSeconds` from `reporter.go`: truncate the fractional seconds to
an integer (`sec := int(secs)`, truncation toward zero), split into
hours/minutes/seconds with Go's truncated integer division, and render
`"%dh%02dm%02ds"` when `hours > 0`, else `"%dm%02ds"`. -/
def formatSeconds (secs : ℚ) : String :=
  let sec0 : ℤ := Int.tdiv secs.num (secs.den : ℤ)
  let hours : ℤ := Int.tdiv sec0 3600
  let sec1 : ℤ := sec0 - hours * 3600
  let min : ℤ := Int.tdiv sec1 60
  let sec2 : ℤ := sec1 - min * 60
  if 0 < hours then
    toString hours ++ "h" ++ pad2 min ++ "m" ++ pad2 sec2 ++ "s"
  else
    toString min ++ "m" ++ pad2 sec2 ++ "s"

/-- Two-digit zero-padding on `ℕ`, used by the spec-side rendering. -/
def pad2n (n : ℕ) : String :=
  let s := toString n
  if s.length < 2 then "0" ++ s else s

/-- Duration rendering as the specification words it: given non-negative
whole seconds, render `"<hours>h<minutes two-digit>m<seconds two-digit>s"`
when hours > 0, else `"<minutes>m<seconds two-digit>s"`. -/
def specFormatSeconds (n : ℕ) : String :=
  let hours := n / 3600
  let min := n % 3600 / 60
  let sec := n % 60
  if 0 < hours then
    toString hours ++ "h" ++ pad2n min ++ "m" ++ pad2n sec ++ "s"
  else
    toString min ++ "m" ++ pad2n sec ++ "s"

/-- Go's `%.0f` rounding: round to the nearest integer, ties to even. -/
def roundHalfEven (q : ℚ) : ℤ :=
  let f := Rat.floor q
  let r2 : ℤ := 2 * (q.num - f * (q.den : ℤ))
  if r2 < (q.den : ℤ) then f
  else if (q.den : ℤ) < r2 then f + 1
  else if f % 2 = 0 then f else f + 1

/-- Go's `%.0f` format verb on a (finite) `float64`, including the
negative-zero case `-0.3 ↦ "-0"`. -/
def fmtF0 (q : ℚ) : String :=
  let r := roundHalfEven q
  if r = 0 ∧ q < 0 then "-0" else toString r

/-- Byte-lexicographic comparison of strings as Go's `sort.StringSlice`
performs it, on the underlying character lists. -/
def charsLe : List Char → List Char → Bool
  | [], _ => true
  | _ :: _, [] => false
  | a :: as, b :: bs =>
    if a.toNat < b.toNat then true
    else if b.toNat < a.toNat then false
    else charsLe as bs

/-- Lexicographic order on strings (the order used by `sort.StringSlice`). -/
def strLe (a b : String) : Prop := charsLe a.data b.data = true

instance : DecidableRel strLe := fun a b => decEq (charsLe a.data b.data) true

/-- Insert a string into a list, keeping `charsLe`-sorted lists sorted. -/
def insertLine (s : String) : List String → List String
  | [] => [s]
  | t :: ts => if charsLe s.data t.data then s :: t :: ts else t :: insertLine s ts

/-- Sorting of the status-code lines: `sort.Sort(sort.StringSlice(res[2:]))`. -/
def sortLines : List String → List String
  | [] => []
  | s :: ss => insertLine s (sortLines ss)

/-- Modelled from the spec: the repository's `Response` type (not part of
the given source files).  One probe outcome: an identifying input value
(`Item`), and exactly one of a response descriptor carrying a status code
or an error; `Error = true` means the result carries an error, in which
case `StatusCode` is meaningless. -/
structure Response where
  Item : String
  Error : Bool
  StatusCode : ℕ
deriving DecidableEq

/-- `HTTPStats` from `reporter.go`.  `Start` and `lastRPS` are nanosecond
instants, `rps` is the smoothed rate (a `float64`, modelled as `ℚ`). -/
structure HTTPStats where
  Start : ℕ
  StatusCodes : List (ℕ × ℕ)
  Errors : ℕ
  Responses : ℕ
  Count : ℕ
  lastRPS : ℕ
  rps : ℚ
deriving DecidableEq

/-- `stats.StatusCodes[code]++` on the Go map, on the association list. -/
def bump : List (ℕ × ℕ) → ℕ → List (ℕ × ℕ)
  | [], c => [(c, 1)]
  | (k, v) :: rest, c => if k = c then (k, v + 1) :: rest else (k, v) :: bump rest c

/-- Sum of the values of the status-code histogram. -/
def sumCounts (l : List (ℕ × ℕ)) : ℕ := (l.map Prod.snd).sum

/-- The per-result accumulator update inlined in `Reporter.Display`:
`stats.Responses++`; then `stats.Errors++` if the result carries an error,
else `stats.StatusCodes[code]++`. -/
def recordResponse (s : HTTPStats) (r : Response) : HTTPStats :=
  let s := {s with Responses := s.Responses + 1}
  if r.Error then {s with Errors := s.Errors + 1}
  else {s with StatusCodes := bump s.StatusCodes r.StatusCode}

/-- The accumulator as `Display` creates it: `&HTTPStats{Start: time.Now(),
StatusCodes: make(map[int]int)}` — every other field is Go's zero value
(`lastRPS` is the zero time). -/
def initStats (startT : ℕ) : HTTPStats :=
  { Start := startT, StatusCodes := [], Errors := 0, Responses := 0,
    Count := 0, lastRPS := 0, rps := 0 }

/-- The status-code histogram rendered as lines `"<code>: <count>"`
(`fmt.Sprintf("%v: %v", code, count)`). -/
def codeLines (l : List (ℕ × ℕ)) : List String :=
  l.map (fun p => toString p.1 ++ ": " ++ toString p.2)

/-- `HTTPStats.Report` from `reporter.go`, at wall-clock instant `now`.
Returns the mutated stats (`rps`/`lastRPS` may be recomputed) together
with the produced lines: a blank line, the summary line, then the
status-code lines sorted as strings. -/
def Report (h : HTTPStats) (current : String) (now : ℕ) : HTTPStats × List String :=
  let status0 := toString h.Responses ++ " requests"
  let dur : ℕ := (now - h.Start) / nsPerSec
  let recompute : Bool := decide (0 < dur) && decide (nsPerSec < now - h.lastRPS)
  let rps : ℚ := if recompute then qdiv ((h.Responses : ℕ) : ℚ) ((dur : ℕ) : ℚ) else h.rps
  let lastRPS : ℕ := if recompute then now else h.lastRPS
  let status1 := if 0 < rps then status0 ++ ", " ++ fmtF0 rps ++ " req/s" else status0
  let status2 :=
    if 0 < h.Count then
      let todo : ℤ := (h.Count : ℤ) - (h.Responses : ℤ)
      let s := status1 ++ ", " ++ toString todo ++ " todo"
      if 0 < rps then s ++ ", " ++ formatSeconds (qdiv ((todo : ℤ) : ℚ) rps) ++ " remaining"
      else s
    else status1
  let status3 := if current = "" then status2 else status2 ++ ", current: " ++ current
  ({ h with rps := rps, lastRPS := lastRPS },
   "" :: status3 :: sortLines (codeLines h.StatusCodes))

/-- One call into the terminal abstraction: a transcript append
(`Print`/`Printf`) or a status-region replacement (`SetStatus`). -/
inductive TermEvent where
  | print (msg : String)
  | setStatus (lines : List String)
deriving DecidableEq

/-- Whether an event is a status-region update. -/
def isSetStatus : TermEvent → Bool
  | .setStatus _ => true
  | .print _ => false

/-- One iteration's inputs of the `Display` loop: the received result, the
value obtained by the non-blocking receive on `countChannel` (if any), and
the wall-clock instant at which `Report` runs in this iteration. -/
structure DisplayInput where
  response : Response
  countUpdate : Option ℕ
  now : ℕ
deriving DecidableEq

/-- The rendered column-header line
`Printf("%7s %8s %8s   %-8s %s\n", "status", "header", "body", "value", "extract")`. -/
def headerLine : String := " status   header     body   value    extract\n"

/-- One iteration of the `Display` loop: lossy `Count` update, record the
result, filter (suppression on the first filter that rejects), optionally
append the rendered result line, and push the new status region.
`render` is the external one-line rendering of a `Response` (`%v`). -/
def displayStep (filters : List (Response → Bool)) (render : Response → String)
    (st : HTTPStats) (inp : DisplayInput) : HTTPStats × List TermEvent :=
  let st1 :=
    match inp.countUpdate with
    | some c => { st with Count := c }
    | none => st
  let st2 := recordResponse st1 inp.response
  let suppressed := filters.any (fun f => f inp.response)
  let rep := Report st2 inp.response.Item inp.now
  (rep.1,
   (if suppressed then [] else [TermEvent.print (render inp.response ++ "\n")]) ++
   [TermEvent.setStatus rep.2])

/-- The `for response := range ch` loop of `Display`. -/
def displayLoop (filters : List (Response → Bool)) (render : Response → String) :
    HTTPStats → List DisplayInput → HTTPStats × List TermEvent
  | st, [] => (st, [])
  | st, inp :: rest =>
    let step := displayStep filters render st inp
    let tail := displayLoop filters render step.1 rest
    (tail.1, step.2 ++ tail.2)

/-- `Reporter.Display` in full: header line, the loop over the result
stream (`inputs`), then — once the stream closes at instant `endT` — a
blank line, the `"processed %d HTTP requests in %v"` line, and every line
of `stats.Report("")[1:]`.  Returns the final accumulator and the trace of
terminal calls. -/
def display (filters : List (Response → Bool)) (render : Response → String)
    (startT : ℕ) (inputs : List DisplayInput) (endT : ℕ) : HTTPStats × List TermEvent :=
  let loop := displayLoop filters render (initStats startT) inputs
  let finalRep := Report loop.1 "" endT
  (finalRep.1,
   TermEvent.print headerLine ::
   loop.2 ++
   TermEvent.print "\n" ::
   TermEvent.print ("processed " ++ toString loop.1.Responses ++ " HTTP requests in " ++
     formatSeconds (qdiv (((endT - startT : ℕ) : ℕ) : ℚ) ((nsPerSec : ℕ) : ℚ)) ++ "\n") ::
   (finalRep.2.drop 1).map TermEvent.print)

/-- Go's `fmt.Sprintf` applied to a format string with NO operands, for
format strings whose `%` directives carry no flag/width characters: `%%`
renders as `%`, a trailing `%` renders as `"%!(NOVERB)"`, and any other
verb `c` renders as `"%!c(MISSING)"` since no operand is supplied. -/
def sprintfNoArgs : List Char → List Char
  | [] => []
  | '%' :: rest =>
    match rest with
    | [] => "%!(NOVERB)".data
    | c :: rest2 =>
      if c = '%' then '%' :: sprintfNoArgs rest2
      else '%' :: '!' :: c :: ("(MISSING)".data ++ sprintfNoArgs rest2)
  | c :: rest => c :: sprintfNoArgs rest

/-- `LogTerminal.Print` from `reporter.go`: normalize the message by
appending `"\n"` when absent (`strings.HasSuffix(msg, "\n")`), then pass
it to the wrapped terminal (`lt.Terminal.Print(msg)`, first component)
and write it to the sink via `fmt.Fprintf(lt.w, msg)` — the message
itself is the format string, with no operands (second component). -/
def logPrint (msg : String) : String × String :=
  let msg := if msg.data.getLast? = some '\n' then msg else msg ++ "\n"
  (msg, String.mk (sprintfNoArgs msg.data))

/-- `qdiv` is exact rational division. -/
theorem qdiv_eq_div (a b : ℚ) : qdiv a b = a / b := by
  conv_rhs => rw [div_eq_mul_inv, ← Rat.num_divInt_den a, ← Rat.num_divInt_den b,
    Rat.inv_divInt', Rat.divInt_mul_divInt']
  rw [qdiv, mul_comm b.num ((a.den : ℕ) : ℤ)]

/-- Unfolding of `charsLe` on two nonempty lists. -/
theorem charsLe_cons_iff (a b : Char) (as bs : List Char) :
    charsLe (a :: as) (b :: bs) = true ↔
      (a.toNat < b.toNat ∨ (a.toNat = b.toNat ∧ charsLe as bs = true)) := by
  simp only [charsLe]
  split_ifs with h1 h2
  · simp [h1]
  · simp only [Bool.false_eq_true, false_iff]
    rintro (h | ⟨h, _⟩) <;> omega
  · have h : a.toNat = b.toNat := by omega
    simp [h]

/-- `charsLe` is total. -/
theorem charsLe_total : ∀ as bs : List Char, charsLe as bs = true ∨ charsLe bs as = true := by
  intro as
  induction as with
  | nil => intro bs; left; rfl
  | cons a as ih =>
    intro bs
    cases bs with
    | nil => right; rfl
    | cons b bs =>
      rcases Nat.lt_trichotomy a.toNat b.toNat with h | h | h
      · left; rw [charsLe_cons_iff]; left; exact h
      · rcases ih bs with hh | hh
        · left; rw [charsLe_cons_iff]; right; exact ⟨h, hh⟩
        · right; rw [charsLe_cons_iff]; right; exact ⟨h.symm, hh⟩
      · right; rw [charsLe_cons_iff]; left; exact h

/-- `charsLe` is transitive. -/
theorem charsLe_trans : ∀ as bs cs : List Char,
    charsLe as bs = true → charsLe bs cs = true → charsLe as cs = true := by
  intro as
  induction as with
  | nil => intro bs cs _ _; rfl
  | cons a as ih =>
    intro bs cs hab hbc
    cases bs with
    | nil => simp [charsLe] at hab
    | cons b bs =>
      cases cs with
      | nil => simp [charsLe] at hbc
      | cons c cs =>
        rw [charsLe_cons_iff] at hab hbc ⊢
        rcases hab with h1 | ⟨h1, h1'⟩ <;> rcases hbc with h2 | ⟨h2, h2'⟩
        · left; omega
        · left; omega
        · left; omega
        · right; exact ⟨by omega, ih bs cs h1' h2'⟩

/-- Inserting keeps the multiset: `insertLine s l` is a permutation of `s :: l`. -/
theorem insertLine_perm (s : String) (l : List String) : (insertLine s l).Perm (s :: l) := by
  induction l with
  | nil => exact List.Perm.refl _
  | cons t ts ih =>
    simp only [insertLine]
    split_ifs with h
    · exact List.Perm.refl _
    · exact (List.Perm.cons t ih).trans (List.Perm.swap s t ts)

/-- `sortLines` permutes its input. -/
theorem sortLines_perm (l : List String) : (sortLines l).Perm l := by
  induction l with
  | nil => exact List.Perm.refl _
  | cons s ss ih => exact (insertLine_perm s (sortLines ss)).trans (List.Perm.cons s ih)

/-- Inserting into a sorted list yields a sorted list. -/
theorem insertLine_sorted (s : String) : ∀ l : List String,
    List.Sorted strLe l → List.Sorted strLe (insertLine s l) := by
  intro l
  induction l with
  | nil => intro _; simp [insertLine, strLe, List.sorted_singleton]
  | cons t ts ih =>
    intro hl
    rw [List.sorted_cons] at hl
    simp only [insertLine]
    split_ifs with h
    · rw [List.sorted_cons]
      constructor
      · intro b hb
        rcases List.mem_cons.mp hb with rfl | hb'
        · exact h
        · exact charsLe_trans _ _ _ h (hl.1 b hb')
      · rw [List.sorted_cons]; exact hl
    · rw [List.sorted_cons]
      constructor
      · intro b hb
        have hb' := (insertLine_perm s ts).mem_iff.mp hb
        rcases List.mem_cons.mp hb' with hbs | hb''
        · rcases charsLe_total b.data t.data with hh | hh
          · rw [hbs] at hh
            exact absurd hh h
          · exact hh
        · exact hl.1 b hb''
      · exact ih hl.2

/-- `sortLines` sorts with respect to the string order. -/
theorem sortLines_sorted (l : List String) : List.Sorted strLe (sortLines l) := by
  induction l with
  | nil => exact List.sorted_nil
  | cons s ss ih => exact insertLine_sorted s (sortLines ss) ih

/-- Incrementing a histogram bucket increments the sum of the values. -/
theorem sumCounts_bump : ∀ (l : List (ℕ × ℕ)) (c : ℕ), sumCounts (bump l c) = sumCounts l + 1 := by
  intro l c
  induction l with
  | nil => rfl
  | cons p rest ih =>
    obtain ⟨k, v⟩ := p
    simp only [bump]
    split_ifs with h
    · simp [sumCounts]
      omega
    · simp only [sumCounts, List.map_cons, List.sum_cons] at ih ⊢
      omega

theorem recordResponse_Responses (s : HTTPStats) (r : Response) :
    (recordResponse s r).Responses = s.Responses + 1 := by
  simp only [recordResponse]
  split_ifs <;> rfl

theorem recordResponse_Errors (s : HTTPStats) (r : Response) :
    (recordResponse s r).Errors = s.Errors + (if r.Error then 1 else 0) := by
  simp only [recordResponse]
  split_ifs <;> rfl

theorem recordResponse_sumCounts (s : HTTPStats) (r : Response) :
    sumCounts (recordResponse s r).StatusCodes =
      sumCounts s.StatusCodes + (if r.Error then 0 else 1) := by
  simp only [recordResponse]
  split_ifs with h
  · rfl
  · simp [sumCounts_bump]

/-- `Report` only mutates `rps` and `lastRPS` (helper used by several claims). -/
theorem Report_frame (h : HTTPStats) (current : String) (now : ℕ) :
    (Report h current now).1.Start = h.Start ∧
    (Report h current now).1.StatusCodes = h.StatusCodes ∧
    (Report h current now).1.Errors = h.Errors ∧
    (Report h current now).1.Responses = h.Responses ∧
    (Report h current now).1.Count = h.Count := by
  refine ⟨rfl, rfl, rfl, rfl, rfl⟩

/-- One record step preserves the counting invariant. -/
theorem recordResponse_inv (s : HTTPStats) (r : Response)
    (hs : s.Responses = sumCounts s.StatusCodes + s.Errors) :
    (recordResponse s r).Responses =
      sumCounts (recordResponse s r).StatusCodes + (recordResponse s r).Errors := by
  rw [recordResponse_Responses, recordResponse_Errors, recordResponse_sumCounts]
  split_ifs <;> omega

/-- Folding record steps preserves the counting invariant. -/
theorem foldl_record_inv : ∀ (rs : List Response) (s : HTTPStats),
    s.Responses = sumCounts s.StatusCodes + s.Errors →
    (List.foldl recordResponse s rs).Responses =
      sumCounts (List.foldl recordResponse s rs).StatusCodes +
      (List.foldl recordResponse s rs).Errors := by
  intro rs
  induction rs with
  | nil => intro s hs; exact hs
  | cons r rs ih =>
    intro s hs
    simp only [List.foldl_cons]
    exact ih (recordResponse s r) (recordResponse_inv s r hs)

/-- One `Display` iteration preserves the counting invariant. -/
theorem displayStep_inv (filters : List (Response → Bool)) (render : Response → String)
    (st : HTTPStats) (inp : DisplayInput)
    (hs : st.Responses = sumCounts st.StatusCodes + st.Errors) :
    (displayStep filters render st inp).1.Responses =
      sumCounts (displayStep filters render st inp).1.StatusCodes +
      (displayStep filters render st inp).1.Errors := by
  obtain ⟨r, cu, tnow⟩ := inp
  cases cu with
  | none =>
    simp only [displayStep]
    have hf := Report_frame (recordResponse st r) r.Item tnow
    rw [hf.2.2.2.1, hf.2.1, hf.2.2.1]
    exact recordResponse_inv st r hs
  | some c =>
    simp only [displayStep]
    have hf := Report_frame (recordResponse { st with Count := c } r) r.Item tnow
    rw [hf.2.2.2.1, hf.2.1, hf.2.2.1]
    exact recordResponse_inv { st with Count := c } r hs

/-- The whole `Display` loop preserves the counting invariant. -/
theorem displayLoop_inv (filters : List (Response → Bool)) (render : Response → String) :
    ∀ (inputs : List DisplayInput) (st : HTTPStats),
    st.Responses = sumCounts st.StatusCodes + st.Errors →
    (displayLoop filters render st inputs).1.Responses =
      sumCounts (displayLoop filters render st inputs).1.StatusCodes +
      (displayLoop filters render st inputs).1.Errors := by
  intro inputs
  induction inputs with
  | nil => intro st hs; exact hs
  | cons inp rest ih =>
    intro st hs
    simp only [displayLoop]
    exact ih _ (displayStep_inv filters render st inp hs)

/-- C1: starting from the all-zero accumulator, after any sequence of
recorded results `Responses` equals the sum of the status-code histogram
plus `Errors`; each record increments `Responses` and exactly one of
`Errors` (error result) or the histogram sum (success result).  The same
invariant holds for the accumulator produced by the `Display` loop on any
input sequence, for any filters. -/
theorem C1_seen_count_invariant :
    (∀ startT : ℕ, (initStats startT).Responses = 0 ∧ (initStats startT).Errors = 0 ∧
      sumCounts (initStats startT).StatusCodes = 0) ∧
    (∀ (s : HTTPStats) (r : Response),
      (recordResponse s r).Responses = s.Responses + 1 ∧
      (recordResponse s r).Errors = s.Errors + (if r.Error then 1 else 0) ∧
      sumCounts (recordResponse s r).StatusCodes =
        sumCounts s.StatusCodes + (if r.Error then 0 else 1)) ∧
    (∀ (startT : ℕ) (rs : List Response),
      (List.foldl recordResponse (initStats startT) rs).Responses =
        sumCounts (List.foldl recordResponse (initStats startT) rs).StatusCodes +
        (List.foldl recordResponse (initStats startT) rs).Errors) ∧
    (∀ (filters : List (Response → Bool)) (render : Response → String)
      (startT : ℕ) (inputs : List DisplayInput),
      (displayLoop filters render (initStats startT) inputs).1.Responses =
        sumCounts (displayLoop filters render (initStats startT) inputs).1.StatusCodes +
        (displayLoop filters render (initStats startT) inputs).1.Errors) := by
  refine ⟨fun startT => ⟨rfl, rfl, rfl⟩,
    fun s r => ⟨recordResponse_Responses s r, recordResponse_Errors s r,
      recordResponse_sumCounts s r⟩,
    fun startT rs => foldl_record_inv rs (initStats startT) rfl,
    fun filters render startT inputs => displayLoop_inv filters render inputs (initStats startT) rfl⟩

/-- C9: `Report` never changes `Start`, `StatusCodes`, `Errors`,
`Responses` or `Count`; the only fields it may mutate are `rps` and
`lastRPS`. -/
theorem C9_report_frame_effect (h : HTTPStats) (current : String) (now : ℕ) :
    (Report h current now).1.Start = h.Start ∧
    (Report h current now).1.StatusCodes = h.StatusCodes ∧
    (Report h current now).1.Errors = h.Errors ∧
    (Report h current now).1.Responses = h.Responses ∧
    (Report h current now).1.Count = h.Count :=
  Report_frame h current now

/-- One `Display` iteration computes the same accumulator state for every
filter list. -/
theorem displayStep_stats_eq (f1 f2 : List (Response → Bool)) (render : Response → String)
    (st : HTTPStats) (inp : DisplayInput) :
    (displayStep f1 render st inp).1 = (displayStep f2 render st inp).1 := rfl

/-- The `Display` loop computes the same accumulator state for every
filter list. -/
theorem displayLoop_stats_eq (f1 f2 : List (Response → Bool)) (render : Response → String) :
    ∀ (inputs : List DisplayInput) (st : HTTPStats),
    (displayLoop f1 render st inputs).1 = (displayLoop f2 render st inputs).1 := by
  intro inputs
  induction inputs with
  | nil => intro st; rfl
  | cons inp rest ih =>
    intro st
    simp only [displayLoop]
    rw [displayStep_stats_eq f1 f2 render st inp]
    exact ih _

/-- C6: the final statistics (`Responses`, `Errors`, the status-code
histogram) computed by `Display` are the same function of the input
sequence for every filter list — filters never affect the accumulator. -/
theorem C6_filters_never_affect_stats (f1 f2 : List (Response → Bool))
    (render : Response → String) (startT : ℕ) (inputs : List DisplayInput) (endT : ℕ) :
    (display f1 render startT inputs endT).1.Responses =
      (display f2 render startT inputs endT).1.Responses ∧
    (display f1 render startT inputs endT).1.Errors =
      (display f2 render startT inputs endT).1.Errors ∧
    (display f1 render startT inputs endT).1.StatusCodes =
      (display f2 render startT inputs endT).1.StatusCodes := by
  have h := displayLoop_stats_eq f1 f2 render inputs (initStats startT)
  simp only [display]
  rw [h]
  exact ⟨rfl, rfl, rfl⟩

/-- C5 (code bug): `LogTerminal.Print` hands the transcript line to
`fmt.Fprintf` as the format string with no operands, so a line containing
a `%` directive is not duplicated verbatim into the sink: for the message
`"a%b"` the wrapped terminal receives `"a%b\n"` but the sink receives
`"a%!b(MISSING)\n"`.  A `%`-free line is copied verbatim. -/
theorem C5_log_mirror_not_verbatim :
    (logPrint "a%b").1 = "a%b\n" ∧
    (logPrint "a%b").2 = "a%!b(MISSING)\n" ∧
    (logPrint "a%b").2 ≠ (logPrint "a%b").1 ∧
    (logPrint "processed 3 HTTP requests in 0m05s").2 =
      (logPrint "processed 3 HTTP requests in 0m05s").1 := by
  exact ⟨by decide, by decide, by decide, by decide⟩

/-- Unfolding of the `rps` mutation performed by `Report`. -/
theorem Report_rps (h : HTTPStats) (current : String) (now : ℕ) :
    (Report h current now).1.rps =
      if (decide (0 < (now - h.Start) / nsPerSec) && decide (nsPerSec < now - h.lastRPS)) = true
      then qdiv ((h.Responses : ℕ) : ℚ) (((now - h.Start) / nsPerSec : ℕ) : ℚ)
      else h.rps := rfl

/-- Unfolding of the `lastRPS` mutation performed by `Report`. -/
theorem Report_lastRPS (h : HTTPStats) (current : String) (now : ℕ) :
    (Report h current now).1.lastRPS =
      if (decide (0 < (now - h.Start) / nsPerSec) && decide (nsPerSec < now - h.lastRPS)) = true
      then now
      else h.lastRPS := rfl

/-- The code's recompute condition, as a proposition. -/
theorem Report_recompute_iff (h : HTTPStats) (now : ℕ) :
    (decide (0 < (now - h.Start) / nsPerSec) && decide (nsPerSec < now - h.lastRPS)) = true ↔
      (nsPerSec ≤ now - h.Start ∧ nsPerSec < now - h.lastRPS) := by
  simp only [Bool.and_eq_true, decide_eq_true_eq, nsPerSec]
  omega

/-- C2 counterexample: with `Start = lastRPS = 0` and `now` exactly one
second later, at least one full second has elapsed since `start` AND at
least one full second has elapsed since `lastRateUpdate`, so the claim
requires the rate to be recomputed to `seenCount / elapsedSeconds = 5/1`;
the code requires STRICTLY more than one second since `lastRPS` and
leaves `rps = 0`. -/
theorem C2_counterexample :
    nsPerSec ≤ nsPerSec - (initStats 0).Start ∧
    nsPerSec ≤ nsPerSec - (initStats 0).lastRPS ∧
    (Report { initStats 0 with Responses := 5 } "" nsPerSec).1.rps = 0 ∧
    (0 : ℚ) ≠ ((5 : ℕ) : ℚ) / (((nsPerSec - (initStats 0).Start) / nsPerSec : ℕ) : ℚ) := by
  refine ⟨by decide, by decide, by decide, ?_⟩
  have h1 : ((nsPerSec - (initStats 0).Start) / nsPerSec : ℕ) = 1 := by decide
  rw [h1, Nat.cast_one, div_one]
  norm_num

/-- C2 amended: `Report` recomputes the rate if and only if at least one
full second has elapsed since `Start` AND strictly more than one second
has elapsed since `lastRPS`; the recomputed value equals `Responses`
divided by the whole number of elapsed seconds since `Start` and
`lastRPS` is set to `now`; otherwise both `rps` and `lastRPS` are reused
unchanged. -/
theorem C2_rate_smoothing (h : HTTPStats) (current : String) (now : ℕ) :
    ((nsPerSec ≤ now - h.Start ∧ nsPerSec < now - h.lastRPS) →
      ((Report h current now).1.rps =
        ((h.Responses : ℕ) : ℚ) / (((now - h.Start) / nsPerSec : ℕ) : ℚ) ∧
       (Report h current now).1.lastRPS = now)) ∧
    (¬ (nsPerSec ≤ now - h.Start ∧ nsPerSec < now - h.lastRPS) →
      ((Report h current now).1.rps = h.rps ∧
       (Report h current now).1.lastRPS = h.lastRPS)) := by
  constructor
  · intro hc
    have hb := (Report_recompute_iff h now).mpr hc
    rw [Report_rps, Report_lastRPS, if_pos hb, if_pos hb, qdiv_eq_div]
    exact ⟨rfl, rfl⟩
  · intro hc
    have hb : ¬ ((decide (0 < (now - h.Start) / nsPerSec) &&
        decide (nsPerSec < now - h.lastRPS)) = true) :=
      fun hh => hc ((Report_recompute_iff h now).mp hh)
    rw [Report_rps, Report_lastRPS, if_neg hb, if_neg hb]
    exact ⟨rfl, rfl⟩

/-- C2 witness: a concrete instance of the amended rate-smoothing theorem,
with `Start = lastRPS = 0`, five responses and `now` just past two
seconds, where the rate is recomputed to `5 / 2`. -/
theorem C2_rate_smoothing_witness :
    (nsPerSec ≤ 2 * nsPerSec + 1 - ({ initStats 0 with Responses := 5 } : HTTPStats).Start ∧
     nsPerSec < 2 * nsPerSec + 1 - ({ initStats 0 with Responses := 5 } : HTTPStats).lastRPS) ∧
    ((Report { initStats 0 with Responses := 5 } "" (2 * nsPerSec + 1)).1.rps =
      ((({ initStats 0 with Responses := 5 } : HTTPStats).Responses : ℕ) : ℚ) /
        (((2 * nsPerSec + 1 - ({ initStats 0 with Responses := 5 } : HTTPStats).Start) / nsPerSec : ℕ) : ℚ) ∧
     (Report { initStats 0 with Responses := 5 } "" (2 * nsPerSec + 1)).1.lastRPS =
       2 * nsPerSec + 1) := by
  have hc : nsPerSec ≤ 2 * nsPerSec + 1 - ({ initStats 0 with Responses := 5 } : HTTPStats).Start ∧
      nsPerSec < 2 * nsPerSec + 1 - ({ initStats 0 with Responses := 5 } : HTTPStats).lastRPS :=
    ⟨by decide, by decide⟩
  exact ⟨hc, (C2_rate_smoothing { initStats 0 with Responses := 5 } "" (2 * nsPerSec + 1)).1 hc⟩

/-- C3: every report consists of a blank line and a summary line, plus
exactly one line per histogram entry, each rendered `"<code>: <count>"`,
and those lines are sorted lexicographically as strings.  The concrete
instance shows the string sort: code 200 precedes code 99 because `'2' < '9'`. -/
theorem C3_report_line_structure (h : HTTPStats) (current : String) (now : ℕ) :
    ((Report h current now).2.length = 2 + h.StatusCodes.length ∧
     (Report h current now).2.head? = some "" ∧
     ((Report h current now).2.drop 2).Perm (codeLines h.StatusCodes) ∧
     List.Sorted strLe ((Report h current now).2.drop 2)) ∧
    (Report ⟨0, [(99, 1), (200, 2)], 0, 3, 0, 0, 0⟩ "" 0).2 =
      ["", "3 requests", "200: 2", "99: 1"] := by
  have hdrop : (Report h current now).2.drop 2 = sortLines (codeLines h.StatusCodes) := rfl
  constructor
  · refine ⟨?_, rfl, ?_, ?_⟩
    · show ("" :: _ :: sortLines (codeLines h.StatusCodes)).length = 2 + h.StatusCodes.length
      rw [List.length_cons, List.length_cons, (sortLines_perm _).length_eq,
        codeLines, List.length_map]
      omega
    · rw [hdrop]
      exact sortLines_perm _
    · rw [hdrop]
      exact sortLines_sorted _
  · decide

/-- Truncating integer division of casts computes the natural division. -/
theorem formatSeconds_natCast (n : ℕ) : formatSeconds ((n : ℕ) : ℚ) = specFormatSeconds n := by
  have hnum : (((n : ℕ) : ℚ)).num = ((n : ℕ) : ℤ) := Rat.num_natCast n
  have hden : (((n : ℕ) : ℚ)).den = (1 : ℕ) := Rat.den_natCast n
  have e0 : Int.tdiv (((n : ℕ) : ℚ)).num (((((n : ℕ) : ℚ)).den : ℕ) : ℤ) = ((n : ℕ) : ℤ) := by
    rw [hnum, hden, Nat.cast_one, Int.tdiv_one]
  have e1 : Int.tdiv ((n : ℕ) : ℤ) (3600 : ℤ) = ((n / 3600 : ℕ) : ℤ) := rfl
  have e2 : ((n : ℕ) : ℤ) - ((n / 3600 : ℕ) : ℤ) * 3600 = ((n % 3600 : ℕ) : ℤ) := by omega
  have e3 : Int.tdiv ((n % 3600 : ℕ) : ℤ) (60 : ℤ) = ((n % 3600 / 60 : ℕ) : ℤ) := rfl
  have e4 : ((n % 3600 : ℕ) : ℤ) - ((n % 3600 / 60 : ℕ) : ℤ) * 60 = ((n % 60 : ℕ) : ℤ) := by
    omega
  simp only [formatSeconds, e0, e1, e2, e3, e4, specFormatSeconds, Int.natCast_pos]
  simp only [show ∀ m : ℕ, toString ((m : ℕ) : ℤ) = toString m from fun _ => rfl,
    show ∀ m : ℕ, pad2 ((m : ℕ) : ℤ) = pad2n m from fun _ => rfl]

/-- C7: on whole non-negative second counts the duration formatter renders
hours/minutes/seconds exactly as the specification describes, with the
three documented examples. -/
theorem C7_formatSeconds_whole_seconds :
    (∀ n : ℕ, formatSeconds ((n : ℕ) : ℚ) = specFormatSeconds n) ∧
    formatSeconds ((0 : ℕ) : ℚ) = "0m00s" ∧
    formatSeconds ((65 : ℕ) : ℚ) = "1m05s" ∧
    formatSeconds ((3661 : ℕ) : ℚ) = "1h01m01s" := by
  refine ⟨formatSeconds_natCast, by decide, by decide, by decide⟩

/-- C10: the duration formatter truncates: a non-negative fractional
second count renders exactly like its floor. -/
theorem C10_formatSeconds_truncates (x : ℚ) (hx : 0 ≤ x) :
    formatSeconds x = formatSeconds ((⌊x⌋ : ℤ) : ℚ) := by
  have h1 : Int.tdiv x.num ((x.den : ℕ) : ℤ) = ⌊x⌋ := by
    rw [Rat.floor_def]
    exact Int.tdiv_eq_ediv (Rat.num_nonneg.mpr hx) (Int.natCast_nonneg _)
  have h2 : Int.tdiv (((⌊x⌋ : ℤ) : ℚ)).num (((((⌊x⌋ : ℤ) : ℚ)).den : ℕ) : ℤ) = ⌊x⌋ := by
    rw [Rat.intCast_num, Rat.intCast_den, Nat.cast_one, Int.tdiv_one]
  simp only [formatSeconds, h1, h2]

/-- C10 witness: the theorem applied at `x = 131/2 = 65.5`, which renders
as `"1m05s"`, like its floor `65`. -/
theorem C10_formatSeconds_truncates_witness :
    0 ≤ mkRat 131 2 ∧
    formatSeconds (mkRat 131 2) = formatSeconds ((⌊mkRat 131 2⌋ : ℤ) : ℚ) ∧
    formatSeconds (mkRat 131 2) = "1m05s" := by
  refine ⟨by decide, C10_formatSeconds_truncates (mkRat 131 2) (by decide), by decide⟩

/-- The closing part of the `Display` trace: everything after the header
and the loop events is the blank line, the `"processed ..."` line, and
every line of the final report except its leading blank, all as
transcript appends. -/
theorem display_closing (filters : List (Response → Bool)) (render : Response → String)
    (startT : ℕ) (inputs : List DisplayInput) (endT : ℕ) :
    (display filters render startT inputs endT).2.drop
        (1 + (displayLoop filters render (initStats startT) inputs).2.length) =
      TermEvent.print "\n" ::
      TermEvent.print ("processed " ++
        toString (displayLoop filters render (initStats startT) inputs).1.Responses ++
        " HTTP requests in " ++
        formatSeconds (qdiv (((endT - startT : ℕ) : ℕ) : ℚ) ((nsPerSec : ℕ) : ℚ)) ++ "\n") ::
      ((Report (displayLoop filters render (initStats startT) inputs).1 "" endT).2.drop 1).map
        TermEvent.print := by
  simp only [display]
  exact List.drop_left' (by rw [List.length_cons]; omega)

/-- C4 counterexample: with a single successful result (status 200) the
closing transcript appends are the blank line, the `"processed ..."`
line, and then the lines `"1 requests"` and `"200: 1"` — the report's own
summary line `"1 requests"` is appended too, while the sorted status-code
lines of the last report are just `["200: 1"]`.  So the closing appends
are not "a blank line, the final summary, then only the sorted
status-code lines". -/
theorem C4_counterexample :
    (display [] (fun _ => "X") 0 [⟨⟨"a", false, 200⟩, none, 0⟩] 0).2 =
      [TermEvent.print headerLine,
       TermEvent.print "X\n",
       TermEvent.setStatus ["", "1 requests, current: a", "200: 1"],
       TermEvent.print "\n",
       TermEvent.print "processed 1 HTTP requests in 0m00s\n",
       TermEvent.print "1 requests",
       TermEvent.print "200: 1"] ∧
    sortLines (codeLines
      (display [] (fun _ => "X") 0 [⟨⟨"a", false, 200⟩, none, 0⟩] 0).1.StatusCodes) =
      ["200: 1"] := by
  exact ⟨by decide, by decide⟩

/-- C4 amended: when the stream closes, `Display` appends (as transcript
appends) a blank line, the final `"processed <n> HTTP requests in <t>"`
line computed directly from the elapsed wall time, and then the lines of
a final report without its leading blank: that report's summary line
followed by the sorted status-code lines — nothing else. -/
theorem C4_closing_lines (filters : List (Response → Bool)) (render : Response → String)
    (startT : ℕ) (inputs : List DisplayInput) (endT : ℕ) :
    (display filters render startT inputs endT).2.drop
        (1 + (displayLoop filters render (initStats startT) inputs).2.length) =
      TermEvent.print "\n" ::
      TermEvent.print ("processed " ++
        toString (displayLoop filters render (initStats startT) inputs).1.Responses ++
        " HTTP requests in " ++
        formatSeconds (qdiv (((endT - startT : ℕ) : ℕ) : ℚ) ((nsPerSec : ℕ) : ℚ)) ++ "\n") ::
      ((Report (displayLoop filters render (initStats startT) inputs).1 "" endT).2.drop 1).map
        TermEvent.print ∧
    ((Report (displayLoop filters render (initStats startT) inputs).1 "" endT).2.drop 1).tail =
      sortLines (codeLines
        (displayLoop filters render (initStats startT) inputs).1.StatusCodes) ∧
    ((Report (displayLoop filters render (initStats startT) inputs).1 "" endT).2.drop 1).length =
      1 + (displayLoop filters render (initStats startT) inputs).1.StatusCodes.length := by
  refine ⟨display_closing filters render startT inputs endT, rfl, ?_⟩
  show (_ :: sortLines (codeLines (displayLoop filters render (initStats startT) inputs).1.StatusCodes)).length = _
  rw [List.length_cons, (sortLines_perm _).length_eq, codeLines, List.length_map]
  omega

/-- Each `Display` iteration performs exactly one status-region update. -/
theorem displayStep_countP_setStatus (filters : List (Response → Bool))
    (render : Response → String) (st : HTTPStats) (inp : DisplayInput) :
    ((displayStep filters render st inp).2.countP isSetStatus) = 1 := by
  simp only [displayStep]
  split <;> simp [isSetStatus, List.countP_cons, List.countP_append]

/-- The loop performs exactly one status-region update per input. -/
theorem displayLoop_countP_setStatus (filters : List (Response → Bool))
    (render : Response → String) :
    ∀ (inputs : List DisplayInput) (st : HTTPStats),
    (displayLoop filters render st inputs).2.countP isSetStatus = inputs.length := by
  intro inputs
  induction inputs with
  | nil => intro st; rfl
  | cons inp rest ih =>
    intro st
    simp only [displayLoop, List.countP_append]
    rw [displayStep_countP_setStatus, ih]
    simp [Nat.add_comm]

/-- Mapped transcript appends contain no status-region update. -/
theorem countP_setStatus_map_print (l : List String) :
    ((l.map TermEvent.print).countP isSetStatus) = 0 := by
  induction l with
  | nil => rfl
  | cons s ss ih => simp [isSetStatus, List.countP_cons, ih]

/-- Mapped transcript appends are all non-status events. -/
theorem all_not_setStatus_map_print (l : List String) :
    ((l.map TermEvent.print).all fun e => !isSetStatus e) = true := by
  induction l with
  | nil => rfl
  | cons s ss ih => simp [isSetStatus, ih]

/-- C8: `Display` calls the status-region operation exactly once per
processed result (each iteration's event block ends with its `SetStatus`),
and never after the stream closes: every event after the loop's events is
a transcript append. -/
theorem C8_setStatus_ordering (filters : List (Response → Bool)) (render : Response → String)
    (startT : ℕ) (inputs : List DisplayInput) (endT : ℕ) :
    (display filters render startT inputs endT).2.countP isSetStatus = inputs.length ∧
    (((display filters render startT inputs endT).2.drop
        (1 + (displayLoop filters render (initStats startT) inputs).2.length)).all
      fun e => !isSetStatus e) = true ∧
    (∀ (st : HTTPStats) (inp : DisplayInput),
      ((displayStep filters render st inp).2.getLast?.map isSetStatus) = some true) := by
  refine ⟨?_, ?_, ?_⟩
  · simp only [display, List.countP_cons, List.countP_append]
    rw [displayLoop_countP_setStatus, countP_setStatus_map_print]
    simp [isSetStatus]
  · rw [display_closing]
    simp only [List.all_cons, Bool.and_eq_true]
    exact ⟨by simp [isSetStatus], by simp [isSetStatus], all_not_setStatus_map_print _⟩
  · intro st inp
    simp only [displayStep]
    rw [List.getLast?_concat]
    simp [isSetStatus]
